import Mathlib

/-!
Verification of the asosuite-cli core (src/index.mjs): input normalizers,
HTTP error decoding, the device-login polling loop, and the keyword-command
request pipelines.  JavaScript strings are modelled as `String`/`List Char`
with ASCII case mapping; the platform primitives `JSON.parse`, `new URL` and
`encodeURIComponent` are modelled as explicit inputs or small faithful
parsers restricted to the inputs the program exercises.
-/

namespace Aso

/-! ## JS string primitives (ASCII model) -/

/-- Whitespace class used by `trim` and `\s` (ASCII part of the JS classes). -/
def wsChar (c : Char) : Bool :=
  c = ' ' || c = '\t' || c = '\n' || c = '\r' || c = '\x0b' || c = '\x0c'

/-- `String.prototype.trim` on a character list. -/
def trimChars (cs : List Char) : List Char :=
  ((cs.dropWhile wsChar).reverse.dropWhile wsChar).reverse

/-- `value.trim()`. -/
def jsTrim (s : String) : String := String.mk (trimChars s.data)

/-- `value.toUpperCase()` (ASCII). -/
def jsToUpper (s : String) : String := String.mk (s.data.map Char.toUpper)

/-- `value.toLowerCase()` (ASCII). -/
def jsToLower (s : String) : String := String.mk (s.data.map Char.toLower)

/-- Bool test that `l` starts with `p`. -/
def startsWithSeq : List Char → List Char → Bool
  | _, [] => true
  | [], _ :: _ => false
  | c :: l, p :: ps => c = p && startsWithSeq l ps

/-- Bool test that `pat` occurs as a contiguous subsequence of `l`
(JS `String.prototype.includes`). -/
def containsSeq : List Char → List Char → Bool
  | [], pat => startsWithSeq [] pat
  | c :: l, pat => startsWithSeq (c :: l) pat || containsSeq l pat

/-- JS word character (`\w` = `[A-Za-z0-9_]`). -/
def wordChar (c : Char) : Bool :=
  c.isDigit || ('a' ≤ c && c ≤ 'z') || ('A' ≤ c && c ≤ 'Z') || c = '_'

/-! ## Constants (src/index.mjs lines 708-739) -/

def WEB_BASE_URL : String := "https://www.asosuite.com"
def API_BASE_URL : String := "https://server.asosuite.com"
def MAX_KEYWORDS : Nat := 50
def MAX_TRACKED_KEYWORDS_ADD : Nat := 200
def DEFAULT_POLL_INTERVAL_SECONDS : Int := 3
def DEFAULT_REGION : String := "US"
def DEFAULT_PLATFORM : String := "iphone"
def APP_ID_MIN_LENGTH : Nat := 6
def MAX_PLANNED_TRACKED_APP_ID_LENGTH : Nat := 64
def SUPPORTED_PLATFORMS : List String :=
  ["iphone", "ipad", "mac", "appletv", "watch", "vision"]

/-! ## Input normalizers (src/index.mjs lines 829-1029) -/

/-- `normalizePlatform` (lines 829-837): trim, lowercase, membership in the
fixed platform set. -/
def normalizePlatform (value : String) : Option String :=
  let normalized := String.mk ((trimChars value.data).map Char.toLower)
  if SUPPORTED_PLATFORMS.contains normalized then some normalized else none

/-- `normalizeRegionCode` (lines 839-849): trim, uppercase, require
`^[A-Z]{2}$`. -/
def normalizeRegionCode (value : String) : Option String :=
  let normalized := (trimChars value.data).map Char.toUpper
  if normalized.length = 2 ∧ normalized.all (fun c => 'A' ≤ c && c ≤ 'Z') then
    some (String.mk normalized)
  else none

/-- Value of a decimal digit list (big-endian). -/
def digitsToNat (ds : List Char) : Nat :=
  ds.foldl (fun a c => a * 10 + (c.toNat - 48)) 0

/-- `Number.parseInt(s, 10)` on an already-trimmed input (the platform
primitive, modelled): optional sign, then a leading digit run with any
trailing junk ignored; no digits means NaN (`none`). -/
def jsParseIntPrefix : List Char → Option Int
  | '-' :: rest =>
    if rest.takeWhile Char.isDigit = [] then none
    else some (-(digitsToNat (rest.takeWhile Char.isDigit) : Int))
  | '+' :: rest =>
    if rest.takeWhile Char.isDigit = [] then none
    else some ((digitsToNat (rest.takeWhile Char.isDigit) : Nat) : Int)
  | t =>
    if t.takeWhile Char.isDigit = [] then none
    else some ((digitsToNat (t.takeWhile Char.isDigit) : Nat) : Int)

/-- `parsePeriodValue` (lines 851-859): `Number.parseInt(trimmed, 10)`,
then membership in `[7, 30, 90]` (NaN is never a member). -/
def parsePeriodValue (value : String) : Option Int :=
  match jsParseIntPrefix (trimChars value.data) with
  | none => none
  | some parsed =>
    if parsed = 7 ∨ parsed = 30 ∨ parsed = 90 then some parsed else none

/-- `normalizePlannedTrackedAppId` (lines 876-890): trim, strip all
whitespace (`replace(/\s+/g, '')`), reject empty or longer than 64. -/
def normalizePlannedTrackedAppId (value : String) : Option String :=
  let normalized := (trimChars value.data).filter (fun c => !wsChar c)
  if normalized = [] then none
  else if MAX_PLANNED_TRACKED_APP_ID_LENGTH < normalized.length then none
  else some (String.mk normalized)

/-! ## parseAppInput (lines 892-931) -/

structure AppParse where
  appId : String
deriving DecidableEq, Repr

/-- Regex `^id(\d{6,})$` with the `i` flag. -/
def matchPrefixedId : List Char → Option (List Char)
  | c1 :: c2 :: rest =>
    if (c1 = 'i' ∨ c1 = 'I') ∧ (c2 = 'd' ∨ c2 = 'D') ∧
        rest.all Char.isDigit ∧ APP_ID_MIN_LENGTH ≤ rest.length then
      some rest
    else none
  | _ => none

/-- Regex `^(\d{6,})$`. -/
def matchBareId (cs : List Char) : Option (List Char) :=
  if cs ≠ [] ∧ cs.all Char.isDigit ∧ APP_ID_MIN_LENGTH ≤ cs.length then some cs
  else none

/-- `(?:/|$)` after the digit run of the pathname regex. -/
def slashOrEnd : List Char → Bool
  | [] => true
  | c :: _ => c = '/'

/-- One anchored attempt of `/id(\d{6,})(?:/|$)` (`i` flag) just after a
`'/'`: `id` (any case), then a maximal digit run of length ≥ 6, then a
slash or the end.  A shorter run cannot match by backtracking because the
character ending the maximal run is not a digit. -/
def idSegMatch : List Char → Option (List Char)
  | c1 :: c2 :: rest =>
    if (c1 = 'i' ∨ c1 = 'I') ∧ (c2 = 'd' ∨ c2 = 'D') then
      let ds := rest.takeWhile Char.isDigit
      if APP_ID_MIN_LENGTH ≤ ds.length ∧ slashOrEnd (rest.drop ds.length) then
        some ds
      else none
    else none
  | _ => none

/-- Left-to-right scan for the first match of `/id(\d{6,})(?:/|$)` (`i`
flag), as `pathname.match` does. -/
def findPathIdMatch : List Char → Option (List Char)
  | [] => none
  | c :: rest =>
    if c = '/' then
      match idSegMatch rest with
      | some ds => some ds
      | none => findPathIdMatch rest
    else findPathIdMatch rest

/-- `\b` after the digit run: end of input or a non-word character. -/
def boundaryAfter : List Char → Bool
  | [] => true
  | c :: _ => !wordChar c

/-- One anchored attempt of `id(\d{6,})\b` (`i` flag) given the characters
following a candidate `i`. -/
def embeddedAttempt : List Char → Option (List Char)
  | c2 :: rest2 =>
    if c2 = 'd' ∨ c2 = 'D' then
      let ds := rest2.takeWhile Char.isDigit
      if APP_ID_MIN_LENGTH ≤ ds.length ∧ boundaryAfter (rest2.drop ds.length) then
        some ds
      else none
    else none
  | [] => none

/-- Left-to-right scan for the first match of `\bid(\d{6,})\b` (`i` flag);
`prevWord` records whether the previous character is a word character
(initially false: start of input is a boundary). -/
def findEmbeddedId : Bool → List Char → Option (List Char)
  | _, [] => none
  | prevWord, c1 :: rest =>
    if prevWord = false ∧ (c1 = 'i' ∨ c1 = 'I') then
      match embeddedAttempt rest with
      | some ds => some ds
      | none => findEmbeddedId (wordChar c1) rest
    else findEmbeddedId (wordChar c1) rest

structure UrlParts where
  pathname : List Char
deriving DecidableEq, Repr

/-- Modelled platform primitive: the WHATWG `new URL` constructor,
restricted to absolute `http(s)` URLs (the only kind this program feeds
it); other inputs make the constructor throw, modelled as `none`.  The
pathname is the part after the host up to a `?` or `#`. -/
def urlParseChars (cs : List Char) : Option UrlParts :=
  let afterScheme : Option (List Char) :=
    if startsWithSeq cs "https://".toList then some (cs.drop 8)
    else if startsWithSeq cs "http://".toList then some (cs.drop 7)
    else none
  match afterScheme with
  | none => none
  | some rest =>
    let host := rest.takeWhile (fun c => !(c = '/' || c = '?' || c = '#'))
    if host = [] then none
    else
      let after := rest.drop host.length
      match after with
      | '/' :: _ => some ⟨after.takeWhile (fun c => !(c = '?' || c = '#'))⟩
      | _ => some ⟨['/']⟩

/-- `parseAppInput` (lines 892-931): trim; try in order the whole-string
`id`-prefixed match, the whole-string bare digit match, the URL pathname
match (a URL-constructor failure is swallowed), and the embedded
`\bid(\d{6,})\b` search. -/
def parseAppInput (value : String) : Option AppParse :=
  let trimmed := trimChars value.data
  if trimmed = [] then none
  else
    match matchPrefixedId trimmed with
    | some ds => some ⟨String.mk ds⟩
    | none =>
      match matchBareId trimmed with
      | some ds => some ⟨String.mk ds⟩
      | none =>
        match (urlParseChars trimmed).bind (fun u => findPathIdMatch u.pathname) with
        | some ds => some ⟨String.mk ds⟩
        | none =>
          match findEmbeddedId false trimmed with
          | some ds => some ⟨String.mk ds⟩
          | none => none

/-! ## normalizeKeywordArgs (lines 1001-1007) -/

def quoteChar (c : Char) : Bool := c = '"' || c = '\''

/-- `replace(/^["']+|["']+$/g, '')`: strip runs of quote characters at both
ends. -/
def stripQuotes (cs : List Char) : List Char :=
  ((cs.dropWhile quoteChar).reverse.dropWhile quoteChar).reverse

/-- `replace(/\s+/g, ' ')`: collapse every maximal whitespace run to one
space; the flag records being inside a run. -/
def collapseWsAux : Bool → List Char → List Char
  | _, [] => []
  | inRun, c :: rest =>
    if wsChar c then
      if inRun then collapseWsAux true rest
      else ' ' :: collapseWsAux true rest
    else c :: collapseWsAux false rest

/-- The per-item pipeline of `normalizeKeywordArgs`: trim, strip outer
quotes, collapse whitespace, trim again. -/
def normalizeKeywordItem (value : String) : String :=
  String.mk (trimChars (collapseWsAux false (stripQuotes (trimChars value.data))))

/-- `normalizeKeywordArgs` (lines 1001-1007). -/
def normalizeKeywordArgs (rest : List String) : List String :=
  (rest.map normalizeKeywordItem).filter (fun v => v ≠ "")

/-! ## normalizeDateOnly (lines 1016-1029) -/

def digitVal (c : Char) : Nat := c.toNat - 48

def isLeapYear (y : Nat) : Bool := (y % 4 = 0 && y % 100 ≠ 0) || y % 400 = 0

def daysInMonth (y m : Nat) : Nat :=
  if m = 2 then (if isLeapYear y then 29 else 28)
  else if m = 4 || m = 6 || m = 9 || m = 11 then 30
  else 31

/-- `normalizeDateOnly` (lines 1016-1029): exact `YYYY-MM-DD` shape, then
the modelled platform primitive `new Date("…T00:00:00.000Z")`, which is
invalid (NaN) exactly when the calendar date does not exist. -/
def normalizeDateOnly (value : String) : Option String :=
  let t := trimChars value.data
  match t with
  | [y1, y2, y3, y4, h1, m1, m2, h2, d1, d2] =>
    if ([y1, y2, y3, y4, m1, m2, d1, d2].all Char.isDigit) ∧ h1 = '-' ∧ h2 = '-' then
      let y := ((digitVal y1 * 10 + digitVal y2) * 10 + digitVal y3) * 10 + digitVal y4
      let m := digitVal m1 * 10 + digitVal m2
      let d := digitVal d1 * 10 + digitVal d2
      if 1 ≤ m ∧ m ≤ 12 ∧ 1 ≤ d ∧ d ≤ daysInMonth y m then some (String.mk t)
      else none
    else none
  | _ => none

instance {ε α : Type} [DecidableEq ε] [DecidableEq α] : DecidableEq (Except ε α)
  | .error a, .error b =>
    if h : a = b then isTrue (by rw [h])
    else isFalse (by intro hh; cases hh; exact h rfl)
  | .error _, .ok _ => isFalse (by intro h; cases h)
  | .ok _, .error _ => isFalse (by intro h; cases h)
  | .ok a, .ok b =>
    if h : a = b then isTrue (by rw [h])
    else isFalse (by intro hh; cases hh; exact h rfl)

/-! ## Argument plumbing (lines 742-767, 933-999)

The handlers mutate the `rest` array in place; here every step returns the
updated list.  A thrown `Error` is an `Except.error` carrying the message. -/

/-- `takeFlag` (lines 758-767): remove the first occurrence of `name`,
report whether it was present. -/
def takeFlag : List String → String → Bool × List String
  | [], _ => (false, [])
  | x :: t, name =>
    if x = name then (true, t)
    else
      let r := takeFlag t name
      (r.1, x :: r.2)

/-- `takeOption` (lines 742-756): find the first occurrence of `name`;
throw if it is the last token, otherwise take the following token as the
value and splice both out. -/
def takeOption : List String → String → Except String (Option String × List String)
  | [], _ => .ok (none, [])
  | [x], name =>
    if x = name then .error ("Missing value for " ++ name) else .ok (none, [x])
  | x :: v :: t, name =>
    if x = name then .ok (some v, t)
    else
      match takeOption (v :: t) name with
      | .error e => .error e
      | .ok (o, t2) => .ok (o, x :: t2)

/-- The positional branch of `consumeAppId` (lines 945-951): the first
remaining token is consumed only when it parses as an app locator. -/
def consumeAppIdPositional : List String → Option String × List String
  | [] => (none, [])
  | first :: tail =>
    match parseAppInput first with
    | some parsed => (some parsed.appId, tail)
    | none => (none, first :: tail)

/-- `consumeAppId` (lines 933-958).  A present but empty `--app` value is
falsy in JS, so it falls through to the positional branch. -/
def consumeAppId (rest : List String) (required : Bool) :
    Except String (Option String × List String) :=
  match takeOption rest "--app" with
  | .error e => .error e
  | .ok (appOptionValue, r1) =>
    let resolved : Except String (Option String × List String) :=
      match appOptionValue with
      | some v =>
        if v = "" then .ok (consumeAppIdPositional r1)
        else
          match parseAppInput v with
          | none =>
            .error "Invalid --app value. Use an App Store URL, id-prefixed value, or numeric id."
          | some parsed => .ok (some parsed.appId, r1)
      | none => .ok (consumeAppIdPositional r1)
    match resolved with
    | .error e => .error e
    | .ok (appId, r2) =>
      if appId = none ∧ required = true then
        .error "Provide an app via --app <APP_ID_OR_URL>"
      else .ok (appId, r2)

structure TrackedTarget where
  appId : Option String
  plannedTrackedAppId : Option String
deriving DecidableEq, Repr

/-- The positional branch of `consumeTrackedKeywordsAppTarget` (lines
966-972): the first token is consumed when its trim is non-empty and does
not start with `--`. -/
def trackedPositional : List String → Option String × List String
  | [] => (none, [])
  | first :: tail =>
    let ft := jsTrim first
    if ft ≠ "" ∧ ¬ startsWithSeq ft.data "--".toList then (some ft, tail)
    else (none, first :: tail)

/-- `consumeTrackedKeywordsAppTarget` (lines 960-999). -/
def consumeTrackedKeywordsAppTarget (rest : List String) :
    Except String (TrackedTarget × List String) :=
  match takeOption rest "--app" with
  | .error e => .error e
  | .ok (appOptionValue, r1) =>
    let idAndRest : Option String × List String :=
      match appOptionValue with
      | some v => if v = "" then trackedPositional r1 else (some (jsTrim v), r1)
      | none => trackedPositional r1
    match idAndRest.1 with
    | none => .error "Provide an app via --app <APP_ID_OR_URL_OR_PLANNED_ID>"
    | some identifier =>
      if identifier = "" then .error "Provide an app via --app <APP_ID_OR_URL_OR_PLANNED_ID>"
      else
        match parseAppInput identifier with
        | some parsed => .ok (⟨some parsed.appId, none⟩, idAndRest.2)
        | none =>
          match normalizePlannedTrackedAppId identifier with
          | some plannedId => .ok (⟨none, some plannedId⟩, idAndRest.2)
          | none => .error "Invalid --app value. Use an App Store URL/id or a planned app id."

/-! ## Keyword command handlers (lines 1505-1543, 2407-2547)

Each handler is modelled up to its single network call: `Except.ok`
carries the request body that would be sent (so an `ok` result means a
network request is issued with exactly that payload), and `Except.error`
is an `Error` thrown before any network call.  `hasToken` models whether
the loaded config holds a non-empty access token
(`requireAuthenticatedAccessToken`, lines 1394-1402). -/

structure KeywordMetricsRequest where
  region : String
  keywords : List String
  appId : Option String
  platform : String
deriving DecidableEq, Repr

/-- `runKeywordMetrics` (lines 1505-1543) up to its `apiRequest` call.
Note the region is only trimmed and uppercased (line 1523), never
validated. -/
def runKeywordMetrics (hasToken : Bool) (rest : List String) :
    Except String KeywordMetricsRequest :=
  let afterJson := takeFlag rest "--json"
  match takeOption afterJson.2 "--region" with
  | .error e => .error e
  | .ok (regionValue, r2) =>
    match takeOption r2 "--platform" with
    | .error e => .error e
    | .ok (platformValue, r3) =>
      match consumeAppId r3 false with
      | .error e => .error e
      | .ok (appId, r4) =>
        let keywords := normalizeKeywordArgs r4
        if keywords.length = 0 then .error "Provide at least one keyword"
        else if MAX_KEYWORDS < keywords.length then
          .error ("At most " ++ toString MAX_KEYWORDS ++ " keywords are allowed per request")
        else if hasToken = false then .error "Not authenticated. Run `asosuite login` first."
        else
          let region := jsToUpper (jsTrim (regionValue.getD DEFAULT_REGION))
          match (match platformValue with
                 | none => some DEFAULT_PLATFORM
                 | some v => normalizePlatform v) with
          | none =>
            .error ("Invalid --platform value. Supported values: " ++
              String.intercalate ", " SUPPORTED_PLATFORMS)
          | some platform => .ok ⟨region, keywords, appId, platform⟩

/-- `resolvePlatformArg` (lines 1603-1613). -/
def resolvePlatformArg (value : Option String) : Except String String :=
  match (match value with
         | none => some DEFAULT_PLATFORM
         | some v => normalizePlatform v) with
  | none =>
    .error ("Invalid --platform value. Supported values: " ++
      String.intercalate ", " SUPPORTED_PLATFORMS)
  | some platform => .ok platform

/-- `resolveRegionArg` (lines 1615-1623). -/
def resolveRegionArg (value : Option String) : Except String String :=
  match (match value with
         | none => some DEFAULT_REGION
         | some v => normalizeRegionCode v) with
  | none => .error "Invalid --region value. Use a 2-letter region code."
  | some region => .ok region

structure TrackedKeywordsRequest where
  pathName : String
  appId : Option String
  plannedTrackedAppId : Option String
  platform : String
  region : String
  keywords : List String
deriving DecidableEq, Repr

/-- Shared body of `runTrackedKeywordsAdd` (lines 2407-2452) and
`runTrackedKeywordsRemove` (lines 2478-2523), which are verbatim
duplicates up to their `apiRequest` call. -/
def runTrackedKeywordsMutation (hasToken : Bool) (rest : List String) :
    Except String TrackedKeywordsRequest :=
  let afterJson := takeFlag rest "--json"
  match takeOption afterJson.2 "--platform" with
  | .error e => .error e
  | .ok (platformValue, r2) =>
    match takeOption r2 "--region" with
    | .error e => .error e
    | .ok (regionValue, r3) =>
      match consumeTrackedKeywordsAppTarget r3 with
      | .error e => .error e
      | .ok (target, r4) =>
        let keywords := normalizeKeywordArgs r4
        if keywords.length = 0 then .error "Provide at least one keyword"
        else if MAX_TRACKED_KEYWORDS_ADD < keywords.length then
          .error ("At most " ++ toString MAX_TRACKED_KEYWORDS_ADD ++
            " keywords are allowed per request")
        else if hasToken = false then .error "Not authenticated. Run `asosuite login` first."
        else
          match resolvePlatformArg platformValue with
          | .error e => .error e
          | .ok platform =>
            match resolveRegionArg regionValue with
            | .error e => .error e
            | .ok region =>
              let isPlannedTarget := target.appId = none
              .ok ⟨if isPlannedTarget then "/api/cli/apps/planned/keywords"
                   else "/api/cli/apps/keywords",
                   if isPlannedTarget then none else target.appId,
                   if isPlannedTarget then target.plannedTrackedAppId else none,
                   platform, region, keywords⟩

/-- `runTrackedKeywordsAdd` (lines 2407-2452) up to its `apiRequest` call. -/
def runTrackedKeywordsAdd (hasToken : Bool) (rest : List String) :
    Except String TrackedKeywordsRequest :=
  runTrackedKeywordsMutation hasToken rest

/-- `runTrackedKeywordsRemove` (lines 2478-2523) up to its `apiRequest`
call. -/
def runTrackedKeywordsRemove (hasToken : Bool) (rest : List String) :
    Except String TrackedKeywordsRequest :=
  runTrackedKeywordsMutation hasToken rest

/-! ## HTTP gateway error decoding (lines 1031-1132) -/

/-- JSON values, as produced by the platform primitive `JSON.parse`. -/
inductive Json where
  | null
  | bool (b : Bool)
  | num (n : Int)
  | str (s : String)
  | arr (elements : List Json)
  | obj (fields : List (String × Json))

/-- `parsed && typeof parsed === 'object' && typeof parsed.error === 'string'`
(lines 1060-1064): only a JSON object can carry an `error` field, and
`JSON.parse` never yields a falsy object. -/
def errorStringField : Json → Option String
  | .obj fields =>
    match fields.lookup "error" with
    | some (.str s) => some s
    | _ => none
  | _ => none

/-- `looksLikeHtml` (lines 1031-1038). -/
def looksLikeHtml (text : String) : Bool :=
  let normalized := (trimChars text.data).map Char.toLower
  startsWithSeq normalized "<!doctype html".toList ||
    startsWithSeq normalized "<html".toList ||
    containsSeq normalized "<body".toList

/-- A non-success HTTP response as `parseErrorResponse` observes it.
`text` is the body read as text (empty when reading failed, line 1049);
`jsonParse` is the platform primitive `JSON.parse text` (`none` when it
throws); `origin` is `new URL(response.url).origin` (`none` when the
constructor throws, line 1040-1046). -/
structure ErrResponse where
  status : Nat
  statusText : String
  text : String
  jsonParse : Option Json
  origin : Option String

structure ErrorInfo where
  message : String
  payload : Option Json

/-- `getResponseOrigin` (lines 1040-1046). -/
def getResponseOrigin (r : ErrResponse) : String := r.origin.getD API_BASE_URL

/-- `parseErrorResponse` (lines 1048-1089). -/
def parseErrorResponse (r : ErrResponse) : ErrorInfo :=
  if r.text = "" then
    ⟨toString r.status ++ " " ++ r.statusText, none⟩
  else
    match r.jsonParse with
    | some parsed =>
      match errorStringField parsed with
      | some message => ⟨message, some parsed⟩
      | none => ⟨r.text, some parsed⟩
    | none =>
      if looksLikeHtml r.text then
        ⟨"Request failed (" ++ toString r.status ++ " " ++ r.statusText ++
          "). Received HTML response from " ++ getResponseOrigin r ++ ".", none⟩
      else ⟨r.text, none⟩

/-- The `Error` thrown by `apiRequest` on a non-success status (lines
1113-1119): message and payload from `parseErrorResponse`, plus the
numeric status. -/
structure ApiError where
  message : String
  status : Nat
  payload : Option Json

def apiRequestThrow (r : ErrResponse) : ApiError :=
  let parsedError := parseErrorResponse r
  ⟨parsedError.message, r.status, parsedError.payload⟩

/-! ## Device login state machine (lines 1287-1387) -/

/-- The start response (lines 1294-1307) as `runAuthLogin` reads it: a
string field is `none` when absent (`start.userCode || ''`); a numeric
field is `some n` when `Number(field)` yields the number `n` and `none`
when it yields NaN (absent or non-numeric). -/
structure StartResponse where
  userCode : Option String
  deviceCode : Option String
  pollIntervalSeconds : Option Int
  expiresInSeconds : Option Int

structure StartSession where
  userCode : String
  deviceCode : String
  pollIntervalSeconds : Int
  expiresInSeconds : Int
deriving DecidableEq, Repr

/-- The start phase of `runAuthLogin` (lines 1294-1311): trim the codes,
default the interval to 3 and the expiry to 600 when absent or
non-positive, and fail when either code is empty.  The verification URL
(line 1300) is a non-empty template string, so its emptiness check never
fires and it is omitted here. -/
def startPhase (r : StartResponse) : Except String StartSession :=
  let userCode := jsTrim (r.userCode.getD "")
  let deviceCode := jsTrim (r.deviceCode.getD "")
  let pollIntervalSeconds :=
    match r.pollIntervalSeconds with
    | some n => if 0 < n then n else DEFAULT_POLL_INTERVAL_SECONDS
    | none => DEFAULT_POLL_INTERVAL_SECONDS
  let expiresInSeconds :=
    match r.expiresInSeconds with
    | some n => if 0 < n then n else 600
    | none => 600
  if deviceCode = "" ∨ userCode = "" then
    .error "Server returned an invalid authentication payload"
  else .ok ⟨userCode, deviceCode, pollIntervalSeconds, expiresInSeconds⟩

/-- One poll of `/api/cli/auth/token`: either a parsed success body or a
thrown failure with its HTTP status (`Number(error?.status || 0)`, line
1363: an error without a status behaves as status 0). -/
inductive PollOutcome where
  | success (accessToken expiresAt : String)
  | failure (status : Nat)
deriving DecidableEq, Repr

structure Credential where
  accessToken : String
  expiresAt : String
deriving DecidableEq, Repr

inductive LoginResult where
  /-- Credential persisted via `saveConfig` (lines 1353-1356), flow ends
  successfully. -/
  | authenticated (cred : Credential)
  /-- `Server returned an invalid token response` (line 1350): rethrown by
  the catch since it has no status. -/
  | invalidTokenResponse
  /-- `Authorization request expired` (status 410, lines 1370-1374). -/
  | expired
  /-- `Authorization request is no longer valid` (status 409/400, lines
  1376-1380). -/
  | invalidated
  /-- Any other failure status: rethrown unchanged (line 1382). -/
  | fatal (status : Nat)
  /-- `Authentication timed out` (line 1386). -/
  | timedOut
  /-- `Server returned an invalid authentication payload` (line 1310),
  before any polling. -/
  | startInvalid
deriving DecidableEq, Repr

/-- The polling loop of `runAuthLogin` (lines 1336-1386).  Times are in
milliseconds; each poll is instantaneous and only the 428 sleep advances
the clock by `interval` ms.  `outcomes` scripts the token endpoint; the
result is paired with the list of times at which polls were issued
(`none` when the script runs out while the loop would still poll). -/
def pollLoop (deadline interval : Int) :
    Int → List PollOutcome → Option LoginResult × List Int
  | time, outcomes =>
    if time < deadline then
      match outcomes with
      | [] => (none, [])
      | .success accessToken expiresAt :: _ =>
        let ta := jsTrim accessToken
        let te := jsTrim expiresAt
        if ta = "" ∨ te = "" then (some .invalidTokenResponse, [time])
        else (some (.authenticated ⟨ta, te⟩), [time])
      | .failure status :: rest =>
        if status = 428 then
          let r := pollLoop deadline interval (time + interval) rest
          (r.1, time :: r.2)
        else if status = 410 then (some .expired, [time])
        else if status = 409 ∨ status = 400 then (some .invalidated, [time])
        else (some (.fatal status), [time])
    else (some .timedOut, [])

/-- `runAuthLogin` (lines 1287-1387): start phase, then the polling loop
with deadline `now + expiresInSeconds * 1000` and sleep interval
`pollIntervalSeconds * 1000`. -/
def runAuthLogin (r : StartResponse) (now : Int) (outcomes : List PollOutcome) :
    Option LoginResult × List Int :=
  match startPhase r with
  | .error _ => (some .startInvalid, [])
  | .ok s =>
    pollLoop (now + s.expiresInSeconds * 1000) (s.pollIntervalSeconds * 1000) now outcomes

/-! ## Helper lemmas -/

theorem takeFlag_not_mem {name : String} :
    ∀ {rest : List String}, name ∉ rest → takeFlag rest name = (false, rest) := by
  intro rest
  induction rest with
  | nil => intro _; rfl
  | cons x t ih =>
    intro h
    have hx : x ≠ name := fun hh => h (by simp [hh])
    have ht : name ∉ t := fun hh => h (by simp [hh])
    simp [takeFlag, hx, ih ht]

theorem takeOption_not_mem {name : String} :
    ∀ {rest : List String}, name ∉ rest → takeOption rest name = .ok (none, rest) := by
  intro rest
  induction rest with
  | nil => intro _; rfl
  | cons x t ih =>
    intro h
    have hx : x ≠ name := fun hh => h (by simp [hh])
    have ht : name ∉ t := fun hh => h (by simp [hh])
    cases t with
    | nil => simp [takeOption, hx]
    | cons v t2 => simp [takeOption, hx, ih ht]

theorem takeOption_head (name v : String) (t : List String) :
    takeOption (name :: v :: t) name = .ok (some v, t) := by
  simp [takeOption]

theorem pollLoop_times_lt (deadline interval : Int) :
    ∀ (outcomes : List PollOutcome) (time : Int),
      ∀ t ∈ (pollLoop deadline interval time outcomes).2, t < deadline := by
  intro outcomes
  induction outcomes with
  | nil =>
    intro time t ht
    by_cases h : time < deadline <;> simp [pollLoop, h] at ht
  | cons o rest ih =>
    intro time t ht
    by_cases h : time < deadline
    · cases o with
      | success a e =>
        by_cases hc : jsTrim a = "" ∨ jsTrim e = "" <;>
          simp [pollLoop, h, hc] at ht <;> exact ht ▸ h
      | failure st =>
        by_cases h428 : st = 428
        · subst h428
          simp [pollLoop, h] at ht
          rcases ht with ht | ht
          · exact ht ▸ h
          · exact ih (time + interval) t ht
        · by_cases h410 : st = 410
          · subst h410; simp [pollLoop, h] at ht; exact ht ▸ h
          · by_cases h409 : st = 409 ∨ st = 400 <;>
              simp [pollLoop, h, h428, h410, h409] at ht <;> exact ht ▸ h
    · cases o <;> simp [pollLoop, h] at ht

/-! ## Claim theorems -/

/-- C1: in the login polling phase, a 428 failure sleeps `interval` and
polls again (the recursive call re-checks the deadline); a 410 failure
ends as the expired failure; 409/400 end as the no-longer-valid failure;
any other failure status is propagated as a fatal error with no retry; a
success with both fields non-empty after trimming ends authenticated with
exactly that credential persisted; a success with an empty field ends as
a fatal error; once the deadline is reached the flow times out, and no
poll is ever issued at or after the deadline. -/
theorem login_poll_transitions (deadline interval time : Int)
    (outcomes : List PollOutcome) :
    (deadline ≤ time → pollLoop deadline interval time outcomes = (some .timedOut, [])) ∧
    (time < deadline → ∀ rest : List PollOutcome,
      (outcomes = .failure 428 :: rest →
        pollLoop deadline interval time outcomes =
          ((pollLoop deadline interval (time + interval) rest).1,
            time :: (pollLoop deadline interval (time + interval) rest).2)) ∧
      (outcomes = .failure 410 :: rest →
        pollLoop deadline interval time outcomes = (some .expired, [time])) ∧
      (∀ status : Nat, status = 409 ∨ status = 400 →
        outcomes = .failure status :: rest →
        pollLoop deadline interval time outcomes = (some .invalidated, [time])) ∧
      (∀ status : Nat, status ≠ 428 → status ≠ 410 → status ≠ 409 → status ≠ 400 →
        outcomes = .failure status :: rest →
        pollLoop deadline interval time outcomes = (some (.fatal status), [time])) ∧
      (∀ accessToken expiresAt : String,
        outcomes = .success accessToken expiresAt :: rest →
        jsTrim accessToken ≠ "" → jsTrim expiresAt ≠ "" →
        pollLoop deadline interval time outcomes =
          (some (.authenticated ⟨jsTrim accessToken, jsTrim expiresAt⟩), [time])) ∧
      (∀ accessToken expiresAt : String,
        outcomes = .success accessToken expiresAt :: rest →
        (jsTrim accessToken = "" ∨ jsTrim expiresAt = "") →
        pollLoop deadline interval time outcomes = (some .invalidTokenResponse, [time]))) ∧
    (∀ t ∈ (pollLoop deadline interval time outcomes).2, t < deadline) := by
  refine ⟨?_, ?_, pollLoop_times_lt deadline interval outcomes time⟩
  · intro h
    cases outcomes with
    | nil => simp [pollLoop, not_lt.mpr h]
    | cons o rest => cases o <;> simp [pollLoop, not_lt.mpr h]
  · intro h rest
    refine ⟨?_, ?_, ?_, ?_, ?_, ?_⟩
    · rintro rfl; simp [pollLoop, h]
    · rintro rfl; simp [pollLoop, h]
    · rintro status (rfl | rfl) rfl <;> simp [pollLoop, h]
    · rintro status h428 h410 h409 h400 rfl
      simp [pollLoop, h, h428, h410, h409, h400]
    · rintro accessToken expiresAt rfl ha he
      simp [pollLoop, h, ha, he]
    · rintro accessToken expiresAt rfl hc
      simp [pollLoop, h, hc]

/-- C1 witness: concrete runs through the timeout, expiry and retry
branches. -/
theorem login_poll_transitions_witness :
    pollLoop 10000 2000 10000 [] = (some .timedOut, []) ∧
    pollLoop 10000 2000 0 [.failure 410] = (some .expired, [0]) ∧
    pollLoop 10000 2000 0 [.failure 428, .success "tok" "2030-01-01"] =
      (some (.authenticated ⟨"tok", "2030-01-01"⟩), [0, 2000]) := by
  refine ⟨(login_poll_transitions 10000 2000 10000 []).1 (by decide), ?_, ?_⟩
  · exact ((login_poll_transitions 10000 2000 0 [.failure 410]).2.1
      (by decide) []).2.1 rfl
  · have h1 := ((login_poll_transitions 10000 2000 0
      [.failure 428, .success "tok" "2030-01-01"]).2.1 (by decide)
      [.success "tok" "2030-01-01"]).1 rfl
    have h2 := ((login_poll_transitions 10000 2000 2000
      [.success "tok" "2030-01-01"]).2.1 (by decide)
      []).2.2.2.2.1 "tok" "2030-01-01" rfl (by decide) (by decide)
    rw [h1, show (0 : Int) + 2000 = 2000 from rfl, h2]
    decide

/-- C8: after the start response, `pollIntervalSeconds` is used when it is
a positive number and otherwise defaults to 3; `expiresInSeconds` likewise
defaults to 600; and an empty (after trimming) `userCode` or `deviceCode`
fails the flow fatally before any poll is issued. -/
theorem login_start_defaults (r : StartResponse) (now : Int)
    (outcomes : List PollOutcome) :
    (∀ n : Int, r.pollIntervalSeconds = some n → 0 < n →
      ∀ s, startPhase r = .ok s → s.pollIntervalSeconds = n) ∧
    ((r.pollIntervalSeconds = none ∨ ∃ n, r.pollIntervalSeconds = some n ∧ ¬ 0 < n) →
      ∀ s, startPhase r = .ok s → s.pollIntervalSeconds = 3) ∧
    (∀ n : Int, r.expiresInSeconds = some n → 0 < n →
      ∀ s, startPhase r = .ok s → s.expiresInSeconds = n) ∧
    ((r.expiresInSeconds = none ∨ ∃ n, r.expiresInSeconds = some n ∧ ¬ 0 < n) →
      ∀ s, startPhase r = .ok s → s.expiresInSeconds = 600) ∧
    (jsTrim (r.userCode.getD "") = "" ∨ jsTrim (r.deviceCode.getD "") = "" →
      startPhase r = .error "Server returned an invalid authentication payload" ∧
      runAuthLogin r now outcomes = (some .startInvalid, [])) := by
  by_cases hc : jsTrim (r.deviceCode.getD "") = "" ∨ jsTrim (r.userCode.getD "") = ""
  · have herr : startPhase r = .error "Server returned an invalid authentication payload" := by
      simp only [startPhase]
      rw [if_pos hc]
    refine ⟨?_, ?_, ?_, ?_, ?_⟩
    · intro n _ _ s hs; rw [herr] at hs; cases hs
    · intro _ s hs; rw [herr] at hs; cases hs
    · intro n _ _ s hs; rw [herr] at hs; cases hs
    · intro _ s hs; rw [herr] at hs; cases hs
    · intro _; exact ⟨herr, by simp [runAuthLogin, herr]⟩
  · have hok : startPhase r = .ok
        ⟨jsTrim (r.userCode.getD ""), jsTrim (r.deviceCode.getD ""),
          (match r.pollIntervalSeconds with
           | some n => if 0 < n then n else DEFAULT_POLL_INTERVAL_SECONDS
           | none => DEFAULT_POLL_INTERVAL_SECONDS),
          (match r.expiresInSeconds with
           | some n => if 0 < n then n else 600
           | none => 600)⟩ := by
      simp only [startPhase]
      rw [if_neg hc]
    refine ⟨?_, ?_, ?_, ?_, ?_⟩
    · intro n hn hpos s hs
      rw [hok] at hs
      cases hs
      simp [hn, hpos]
    · intro hdef s hs
      rw [hok] at hs
      cases hs
      rcases hdef with hnone | ⟨n, hn, hnpos⟩
      · simp [hnone, DEFAULT_POLL_INTERVAL_SECONDS]
      · simp [hn, hnpos, DEFAULT_POLL_INTERVAL_SECONDS]
    · intro n hn hpos s hs
      rw [hok] at hs
      cases hs
      simp [hn, hpos]
    · intro hdef s hs
      rw [hok] at hs
      cases hs
      rcases hdef with hnone | ⟨n, hn, hnpos⟩
      · simp [hnone]
      · simp [hn, hnpos]
    · intro habs
      exact absurd habs.symm hc

/-- C8 witness: a non-positive interval defaults to 3, a missing expiry to
600; a whitespace-only user code aborts before polling. -/
theorem login_start_defaults_witness :
    startPhase ⟨some "U1", some "D1", some (-2), none⟩ = .ok ⟨"U1", "D1", 3, 600⟩ ∧
    runAuthLogin ⟨some "  ", some "D1", none, none⟩ 0 [.failure 428] =
      (some .startInvalid, []) := by
  refine ⟨by decide, ?_⟩
  exact ((login_start_defaults ⟨some "  ", some "D1", none, none⟩ 0
    [.failure 428]).2.2.2.2 (Or.inl (by decide))).2

/-- C10: a non-success response whose body is empty (or could not be read,
which yields empty text) produces the message `"<status> <statusText>"`
with a null payload; the raw-text rule is never applied to it. -/
theorem gateway_empty_body (status : Nat) (statusText : String)
    (jsonParse : Option Json) (origin : Option String) :
    parseErrorResponse ⟨status, statusText, "", jsonParse, origin⟩ =
      ⟨toString status ++ " " ++ statusText, none⟩ := rfl

/-- C2 counterexample: for the empty body the claim's "otherwise the
message is the raw body text verbatim" fails — JSON parsing fails, the
body does not resemble HTML, yet the message is not the (empty) body. -/
theorem gateway_raw_text_fails_on_empty_body :
    (ErrResponse.mk 500 "Internal Server Error" "" none none).jsonParse = none ∧
    looksLikeHtml (ErrResponse.mk 500 "Internal Server Error" "" none none).text = false ∧
    (parseErrorResponse (ErrResponse.mk 500 "Internal Server Error" "" none none)).message ≠
      (ErrResponse.mk 500 "Internal Server Error" "" none none).text := by
  refine ⟨rfl, rfl, ?_⟩
  decide

/-- C2 (amended: for responses with a non-empty body): the thrown error
carries the numeric status; a JSON object body with a string `error` field
gives that field as the message and the parsed object as payload; a
non-JSON HTML-looking body gives the synthesized status/origin line with a
null payload; any other non-JSON body is passed through verbatim with a
null payload (and a JSON body without a string `error` field is also
passed through verbatim). -/
theorem gateway_error_decoding (r : ErrResponse) (hne : r.text ≠ "") :
    (apiRequestThrow r).status = r.status ∧
    (∀ parsed msg, r.jsonParse = some parsed → errorStringField parsed = some msg →
      (apiRequestThrow r).message = msg ∧ (apiRequestThrow r).payload = some parsed) ∧
    (∀ parsed, r.jsonParse = some parsed → errorStringField parsed = none →
      (apiRequestThrow r).message = r.text) ∧
    (r.jsonParse = none → looksLikeHtml r.text = true →
      (apiRequestThrow r).message =
        "Request failed (" ++ toString r.status ++ " " ++ r.statusText ++
          "). Received HTML response from " ++ getResponseOrigin r ++ "." ∧
      (apiRequestThrow r).payload = none) ∧
    (r.jsonParse = none → looksLikeHtml r.text = false →
      (apiRequestThrow r).message = r.text ∧ (apiRequestThrow r).payload = none) := by
  refine ⟨rfl, ?_, ?_, ?_, ?_⟩
  · intro parsed msg hp hmsg
    constructor <;> simp [apiRequestThrow, parseErrorResponse, hne, hp, hmsg]
  · intro parsed hp hmsg
    simp [apiRequestThrow, parseErrorResponse, hne, hp, hmsg]
  · intro hp hhtml
    constructor <;> simp [apiRequestThrow, parseErrorResponse, hne, hp, hhtml]
  · intro hp hhtml
    constructor <;> simp [apiRequestThrow, parseErrorResponse, hne, hp, hhtml]

/-- C2 witness: the spec's own example — a 500 with body `{"error":"boom"}`
yields the message `boom`, the parsed object as payload and status 500. -/
theorem gateway_error_decoding_witness :
    (apiRequestThrow ⟨500, "Internal Server Error", "\x7b\"error\":\"boom\"\x7d",
        some (.obj [("error", .str "boom")]), none⟩).message = "boom" ∧
    (apiRequestThrow ⟨500, "Internal Server Error", "\x7b\"error\":\"boom\"\x7d",
        some (.obj [("error", .str "boom")]), none⟩).payload =
      some (.obj [("error", .str "boom")]) ∧
    (apiRequestThrow ⟨500, "Internal Server Error", "\x7b\"error\":\"boom\"\x7d",
        some (.obj [("error", .str "boom")]), none⟩).status = 500 := by
  have h := gateway_error_decoding
    ⟨500, "Internal Server Error", "\x7b\"error\":\"boom\"\x7d",
      some (.obj [("error", .str "boom")]), none⟩ (by decide)
  have h2 := h.2.1 (.obj [("error", .str "boom")]) "boom" rfl rfl
  exact ⟨h2.1, h2.2, h.1⟩

/-- C7: keyword-list normalization is an order-preserving,
non-deduplicating per-item map (trim, strip outer quotes, collapse inner
whitespace, trim again) that drops empty results; in particular the spec's
example evaluates as claimed. -/
theorem keyword_list_normalization (xs ys : List String) (v : String) :
    normalizeKeywordArgs (xs ++ ys) = normalizeKeywordArgs xs ++ normalizeKeywordArgs ys ∧
    normalizeKeywordArgs [v] =
      (if normalizeKeywordItem v = "" then [] else [normalizeKeywordItem v]) ∧
    normalizeKeywordArgs ["  \"run tracker\"  ", "", "\"a   b\""] = ["run tracker", "a b"] := by
  refine ⟨?_, ?_, by decide⟩
  · simp [normalizeKeywordArgs]
  · by_cases h : normalizeKeywordItem v = "" <;> simp [normalizeKeywordArgs, h]

/-- C3 counterexample: the keywords (metrics) command does not validate
`--region` — with the invalid value `USA` a network request is still built
and carries the coerced value `USA` in its body, although
`normalizeRegionCode` itself would reject it. -/
theorem keywords_region_not_validated :
    runKeywordMetrics true ["--region", "USA", "kw"] =
      .ok ⟨"USA", ["kw"], none, "iphone"⟩ ∧
    normalizeRegionCode "USA" = none := by
  constructor <;> decide

/-- C3 (amended): `runKeywordMetrics` never validates `--region`; it
trims and uppercases any value and puts the result in the request body
(`se` becomes `SE`, but `USA` is likewise sent as `USA`), whereas
`normalizeRegionCode` — not invoked by this command — uppercases `se` to
`SE` and rejects `USA`. -/
theorem keywords_region_coerced (v : String) (hv : v ≠ "--json") :
    runKeywordMetrics true ["--region", v, "kw"] =
      .ok ⟨jsToUpper (jsTrim v), ["kw"], none, "iphone"⟩ ∧
    normalizeRegionCode "se" = some "SE" ∧ normalizeRegionCode "USA" = none := by
  refine ⟨?_, by decide, by decide⟩
  have hmem : "--json" ∉ (["--region", v, "kw"] : List String) := by
    intro hmem
    rcases List.mem_cons.mp hmem with h | hmem
    · exact absurd h (by decide)
    rcases List.mem_cons.mp hmem with h | hmem
    · exact hv h.symm
    rcases List.mem_cons.mp hmem with h | hmem
    · exact absurd h (by decide)
    · exact List.not_mem_nil _ hmem
  have hj : takeFlag ["--region", v, "kw"] "--json" = (false, ["--region", v, "kw"]) :=
    takeFlag_not_mem hmem
  have hr : takeOption ["--region", v, "kw"] "--region" = .ok (some v, ["kw"]) :=
    takeOption_head _ _ _
  have hp : takeOption ["kw"] "--platform" = .ok (none, ["kw"]) :=
    takeOption_not_mem (by decide)
  have hc : consumeAppId ["kw"] false = .ok (none, ["kw"]) := by decide
  have hk : normalizeKeywordArgs ["kw"] = ["kw"] := by decide
  simp [runKeywordMetrics, hj, hr, hp, hc, hk, MAX_KEYWORDS, DEFAULT_PLATFORM]

/-- C3 witness: a valid two-letter region `se` is uppercased into the
request body as `SE`. -/
theorem keywords_region_coerced_witness :
    runKeywordMetrics true ["--region", "se", "kw"] =
      .ok ⟨"SE", ["kw"], none, "iphone"⟩ := by
  have h := (keywords_region_coerced "se" (by decide)).1
  rw [h]
  decide

theorem consumeAppId_no_opt (rest : List String) (required : Bool)
    (h : "--app" ∉ rest) :
    consumeAppId rest required =
      (if (consumeAppIdPositional rest).1 = none ∧ required = true
       then .error "Provide an app via --app <APP_ID_OR_URL>"
       else .ok (consumeAppIdPositional rest)) := by
  simp only [consumeAppId, takeOption_not_mem h]

/-- C5: when a command is invoked without an explicit `--app` option, the
first remaining positional argument is consumed as the app target exactly
when it parses as an app locator (and only the head is removed); otherwise
the argument list reaches keyword/query parsing unchanged — no later
positional argument is ever consumed as the app target. -/
theorem app_positional_consumption (rest : List String) (required : Bool)
    (h : "--app" ∉ rest) :
    (rest = [] → consumeAppId rest required =
      (if required = true then .error "Provide an app via --app <APP_ID_OR_URL>"
       else .ok (none, []))) ∧
    (∀ first tail, rest = first :: tail →
      (∀ parsed, parseAppInput first = some parsed →
        consumeAppId rest required = .ok (some parsed.appId, tail)) ∧
      (parseAppInput first = none →
        consumeAppId rest required =
          (if required = true then .error "Provide an app via --app <APP_ID_OR_URL>"
           else .ok (none, first :: tail)))) := by
  constructor
  · rintro rfl
    rw [consumeAppId_no_opt _ _ h]
    simp [consumeAppIdPositional]
  · rintro first tail rfl
    constructor
    · intro parsed hp
      rw [consumeAppId_no_opt _ _ h]
      simp [consumeAppIdPositional, hp]
    · intro hp
      rw [consumeAppId_no_opt _ _ h]
      simp [consumeAppIdPositional, hp]

/-- C5 witness: a numeric first positional is consumed (leaving the rest),
while a non-locator first positional is left in place and the later
locator-looking token `123456` is not consumed. -/
theorem app_positional_consumption_witness :
    consumeAppId ["6448311069", "kw"] false = .ok (some "6448311069", ["kw"]) ∧
    consumeAppId ["kw", "123456"] false = .ok (none, ["kw", "123456"]) := by
  constructor
  · exact ((app_positional_consumption ["6448311069", "kw"] false
      (by decide)).2 "6448311069" ["kw"] rfl).1 ⟨"6448311069"⟩ (by decide)
  · have h := ((app_positional_consumption ["kw", "123456"] false
      (by decide)).2 "kw" ["123456"] rfl).2 (by decide)
    rw [h]
    rfl

theorem runKeywordMetrics_plain (hasToken : Bool) (kws : List String)
    (h1 : "--json" ∉ kws) (h2 : "--region" ∉ kws) (h3 : "--platform" ∉ kws)
    (h4 : "--app" ∉ kws) (h5 : ∀ f ∈ kws, parseAppInput f = none) :
    runKeywordMetrics hasToken kws =
      (if (normalizeKeywordArgs kws).length = 0 then .error "Provide at least one keyword"
       else if MAX_KEYWORDS < (normalizeKeywordArgs kws).length then
         .error "At most 50 keywords are allowed per request"
       else if hasToken = false then .error "Not authenticated. Run `asosuite login` first."
       else .ok ⟨"US", normalizeKeywordArgs kws, none, "iphone"⟩) := by
  have hca : consumeAppId kws false = .ok (none, kws) := by
    rw [consumeAppId_no_opt _ _ h4]
    cases kws with
    | nil => simp [consumeAppIdPositional]
    | cons f t => simp [consumeAppIdPositional, h5 f (by simp)]
  have hmsg : "At most " ++ toString MAX_KEYWORDS ++ " keywords are allowed per request" =
      "At most 50 keywords are allowed per request" := by decide
  have hus : jsToUpper (jsTrim DEFAULT_REGION) = "US" := by decide
  simp [runKeywordMetrics, takeFlag_not_mem h1, takeOption_not_mem h2,
    takeOption_not_mem h3, hca, hmsg, hus, DEFAULT_PLATFORM]

theorem runTrackedMutation_plain (hasToken : Bool) (appTok : String)
    (kws : List String) (pa : AppParse)
    (h1 : "--json" ∉ appTok :: kws) (h2 : "--platform" ∉ appTok :: kws)
    (h3 : "--region" ∉ appTok :: kws) (h4 : "--app" ∉ appTok :: kws)
    (h5 : jsTrim appTok ≠ "")
    (h6 : startsWithSeq (jsTrim appTok).toList "--".toList = false)
    (h7 : parseAppInput (jsTrim appTok) = some pa) :
    runTrackedKeywordsMutation hasToken (appTok :: kws) =
      (if (normalizeKeywordArgs kws).length = 0 then .error "Provide at least one keyword"
       else if MAX_TRACKED_KEYWORDS_ADD < (normalizeKeywordArgs kws).length then
         .error "At most 200 keywords are allowed per request"
       else if hasToken = false then .error "Not authenticated. Run `asosuite login` first."
       else .ok ⟨"/api/cli/apps/keywords", some pa.appId, none, "iphone", "US",
         normalizeKeywordArgs kws⟩) := by
  have h6d : startsWithSeq (jsTrim appTok).data ['-', '-'] = false := h6
  have hct : consumeTrackedKeywordsAppTarget (appTok :: kws) =
      .ok (⟨some pa.appId, none⟩, kws) := by
    simp [consumeTrackedKeywordsAppTarget, takeOption_not_mem h4,
      trackedPositional, h5, h6d, h7]
  have hmsg : "At most " ++ toString MAX_TRACKED_KEYWORDS_ADD ++
      " keywords are allowed per request" =
      "At most 200 keywords are allowed per request" := by decide
  simp [runTrackedKeywordsMutation, takeFlag_not_mem h1, takeOption_not_mem h2,
    takeOption_not_mem h3, hct, hmsg, resolvePlatformArg, resolveRegionArg,
    DEFAULT_PLATFORM, DEFAULT_REGION]

/-- C6: with the keyword tokens reaching keyword parsing, the metrics
command rejects an empty normalized list and one longer than 50 before any
network request (an `Except.error`), while exactly 50 keywords pass
validation and a request is issued; tracked-keywords add and remove do the
same with a cap of 200. -/
theorem keyword_count_validation (hasToken : Bool) (kws : List String)
    (appTok : String) (pa : AppParse)
    (hj : "--json" ∉ kws) (hr : "--region" ∉ kws) (hp : "--platform" ∉ kws)
    (ha : "--app" ∉ kws) (hplain : ∀ f ∈ kws, parseAppInput f = none)
    (haj : appTok ≠ "--json") (hap : appTok ≠ "--platform")
    (har : appTok ≠ "--region") (haa : appTok ≠ "--app")
    (ht5 : jsTrim appTok ≠ "")
    (ht6 : startsWithSeq (jsTrim appTok).toList "--".toList = false)
    (ht7 : parseAppInput (jsTrim appTok) = some pa) :
    ((normalizeKeywordArgs kws).length = 0 →
      runKeywordMetrics hasToken kws = .error "Provide at least one keyword" ∧
      runTrackedKeywordsAdd hasToken (appTok :: kws) = .error "Provide at least one keyword" ∧
      runTrackedKeywordsRemove hasToken (appTok :: kws) = .error "Provide at least one keyword") ∧
    (50 < (normalizeKeywordArgs kws).length →
      runKeywordMetrics hasToken kws = .error "At most 50 keywords are allowed per request") ∧
    ((normalizeKeywordArgs kws).length = 50 →
      runKeywordMetrics true kws = .ok ⟨"US", normalizeKeywordArgs kws, none, "iphone"⟩) ∧
    (200 < (normalizeKeywordArgs kws).length →
      runTrackedKeywordsAdd hasToken (appTok :: kws) =
        .error "At most 200 keywords are allowed per request" ∧
      runTrackedKeywordsRemove hasToken (appTok :: kws) =
        .error "At most 200 keywords are allowed per request") ∧
    ((normalizeKeywordArgs kws).length = 200 →
      runTrackedKeywordsAdd true (appTok :: kws) =
        .ok ⟨"/api/cli/apps/keywords", some pa.appId, none, "iphone", "US",
          normalizeKeywordArgs kws⟩ ∧
      runTrackedKeywordsRemove true (appTok :: kws) =
        .ok ⟨"/api/cli/apps/keywords", some pa.appId, none, "iphone", "US",
          normalizeKeywordArgs kws⟩) := by
  have h1c : "--json" ∉ appTok :: kws := by
    intro hmem; rcases List.mem_cons.mp hmem with h | h
    · exact haj h.symm
    · exact hj h
  have h2c : "--platform" ∉ appTok :: kws := by
    intro hmem; rcases List.mem_cons.mp hmem with h | h
    · exact hap h.symm
    · exact hp h
  have h3c : "--region" ∉ appTok :: kws := by
    intro hmem; rcases List.mem_cons.mp hmem with h | h
    · exact har h.symm
    · exact hr h
  have h4c : "--app" ∉ appTok :: kws := by
    intro hmem; rcases List.mem_cons.mp hmem with h | h
    · exact haa h.symm
    · exact ha h
  have hm := runKeywordMetrics_plain hasToken kws hj hr hp ha hplain
  have hmt := runKeywordMetrics_plain true kws hj hr hp ha hplain
  have htk := runTrackedMutation_plain hasToken appTok kws pa h1c h2c h3c h4c ht5 ht6 ht7
  have htkt := runTrackedMutation_plain true appTok kws pa h1c h2c h3c h4c ht5 ht6 ht7
  refine ⟨?_, ?_, ?_, ?_, ?_⟩
  · intro hn
    refine ⟨?_, ?_, ?_⟩ <;>
      simp [runTrackedKeywordsAdd, runTrackedKeywordsRemove, hm, htk, hn]
  · intro hn
    have h0 : ¬ (normalizeKeywordArgs kws).length = 0 := by omega
    simp [hm, h0, MAX_KEYWORDS, hn]
  · intro hn
    simp [hmt, hn, MAX_KEYWORDS]
  · intro hn
    have h0 : ¬ (normalizeKeywordArgs kws).length = 0 := by omega
    constructor <;>
      simp [runTrackedKeywordsAdd, runTrackedKeywordsRemove, htk, h0,
        MAX_TRACKED_KEYWORDS_ADD, hn]
  · intro hn
    constructor <;>
      simp [runTrackedKeywordsAdd, runTrackedKeywordsRemove, htkt, hn,
        MAX_TRACKED_KEYWORDS_ADD]

set_option maxRecDepth 4096 in
/-- C6 witness: 50 keywords pass the metrics validation and 51 are
rejected; 200 pass tracked-keywords add and 201 are rejected by
tracked-keywords remove; an empty list is rejected. -/
theorem keyword_count_validation_witness :
    runKeywordMetrics true (List.replicate 50 "kw") =
      .ok ⟨"US", List.replicate 50 "kw", none, "iphone"⟩ ∧
    runKeywordMetrics true (List.replicate 51 "kw") =
      .error "At most 50 keywords are allowed per request" ∧
    runTrackedKeywordsAdd true ("6448311069" :: List.replicate 200 "kw") =
      .ok ⟨"/api/cli/apps/keywords", some "6448311069", none, "iphone", "US",
        List.replicate 200 "kw"⟩ ∧
    runTrackedKeywordsRemove true ("6448311069" :: List.replicate 201 "kw") =
      .error "At most 200 keywords are allowed per request" ∧
    runKeywordMetrics true ([] : List String) = .error "Provide at least one keyword" := by
  refine ⟨?_, ?_, ?_, ?_, ?_⟩
  · have h := (keyword_count_validation true (List.replicate 50 "kw") "6448311069"
      ⟨"6448311069"⟩ (by decide) (by decide) (by decide) (by decide) (by decide)
      (by decide) (by decide) (by decide) (by decide) (by decide) (by decide)
      (by decide)).2.2.1 (by decide)
    rw [h, show normalizeKeywordArgs (List.replicate 50 "kw") = List.replicate 50 "kw"
      from by decide]
  · exact (keyword_count_validation true (List.replicate 51 "kw") "6448311069"
      ⟨"6448311069"⟩ (by decide) (by decide) (by decide) (by decide) (by decide)
      (by decide) (by decide) (by decide) (by decide) (by decide) (by decide)
      (by decide)).2.1 (by decide)
  · have h := (keyword_count_validation true (List.replicate 200 "kw") "6448311069"
      ⟨"6448311069"⟩ (by decide) (by decide) (by decide) (by decide) (by decide)
      (by decide) (by decide) (by decide) (by decide) (by decide) (by decide)
      (by decide)).2.2.2.2 (by decide)
    rw [h.1, show normalizeKeywordArgs (List.replicate 200 "kw") = List.replicate 200 "kw"
      from by decide]
  · exact ((keyword_count_validation true (List.replicate 201 "kw") "6448311069"
      ⟨"6448311069"⟩ (by decide) (by decide) (by decide) (by decide) (by decide)
      (by decide) (by decide) (by decide) (by decide) (by decide) (by decide)
      (by decide)).2.2.2.1 (by decide)).2
  · exact ((keyword_count_validation true ([] : List String) "6448311069"
      ⟨"6448311069"⟩ (by decide) (by decide) (by decide) (by decide) (by simp)
      (by decide) (by decide) (by decide) (by decide) (by decide) (by decide)
      (by decide)).1 (by decide)).1

theorem matchPrefixedId_digits : ∀ {cs ds : List Char},
    matchPrefixedId cs = some ds →
    ds.all Char.isDigit = true ∧ APP_ID_MIN_LENGTH ≤ ds.length := by
  intro cs ds h
  match cs with
  | [] => exact Option.noConfusion h
  | [c] => exact Option.noConfusion h
  | c1 :: c2 :: rest =>
    simp only [matchPrefixedId] at h
    split at h
    · rename_i hcond
      injection h with h
      exact h ▸ ⟨hcond.2.2.1, hcond.2.2.2⟩
    · exact Option.noConfusion h

theorem matchBareId_digits {cs ds : List Char} (h : matchBareId cs = some ds) :
    ds.all Char.isDigit = true ∧ APP_ID_MIN_LENGTH ≤ ds.length := by
  simp only [matchBareId] at h
  split at h
  · rename_i hcond
    injection h with h
    exact h ▸ ⟨hcond.2.1, hcond.2.2⟩
  · exact Option.noConfusion h

theorem idSegMatch_digits : ∀ {cs ds : List Char},
    idSegMatch cs = some ds →
    ds.all Char.isDigit = true ∧ APP_ID_MIN_LENGTH ≤ ds.length := by
  intro cs ds h
  match cs with
  | [] => simp [idSegMatch] at h
  | [c] => simp [idSegMatch] at h
  | c1 :: c2 :: rest =>
    by_cases hid : (c1 = 'i' ∨ c1 = 'I') ∧ (c2 = 'd' ∨ c2 = 'D')
    · simp only [idSegMatch, if_pos hid] at h
      by_cases hlen : APP_ID_MIN_LENGTH ≤ (rest.takeWhile Char.isDigit).length ∧
          slashOrEnd (rest.drop (rest.takeWhile Char.isDigit).length) = true
      · simp only [if_pos hlen, Option.some.injEq] at h
        exact h ▸ ⟨List.all_takeWhile, hlen.1⟩
      · simp [if_neg hlen] at h
    · simp [idSegMatch, if_neg hid] at h

theorem findPathIdMatch_digits : ∀ {cs ds : List Char},
    findPathIdMatch cs = some ds →
    ds.all Char.isDigit = true ∧ APP_ID_MIN_LENGTH ≤ ds.length := by
  intro cs
  induction cs with
  | nil => intro ds h; simp [findPathIdMatch] at h
  | cons c rest ih =>
    intro ds h
    by_cases hc : c = '/'
    · simp only [findPathIdMatch, if_pos hc] at h
      cases hseg : idSegMatch rest with
      | some ds2 => rw [hseg] at h; cases h; exact idSegMatch_digits hseg
      | none => rw [hseg] at h; exact ih h
    · simp only [findPathIdMatch, if_neg hc] at h
      exact ih h

theorem embeddedAttempt_digits : ∀ {cs ds : List Char},
    embeddedAttempt cs = some ds →
    ds.all Char.isDigit = true ∧ APP_ID_MIN_LENGTH ≤ ds.length := by
  intro cs ds h
  match cs with
  | [] => simp [embeddedAttempt] at h
  | c2 :: rest2 =>
    by_cases hd : c2 = 'd' ∨ c2 = 'D'
    · simp only [embeddedAttempt, if_pos hd] at h
      by_cases hlen : APP_ID_MIN_LENGTH ≤ (rest2.takeWhile Char.isDigit).length ∧
          boundaryAfter (rest2.drop (rest2.takeWhile Char.isDigit).length) = true
      · simp only [if_pos hlen, Option.some.injEq] at h
        exact h ▸ ⟨List.all_takeWhile, hlen.1⟩
      · simp [if_neg hlen] at h
    · simp [embeddedAttempt, if_neg hd] at h

theorem findEmbeddedId_digits : ∀ {cs : List Char} {prevWord : Bool} {ds : List Char},
    findEmbeddedId prevWord cs = some ds →
    ds.all Char.isDigit = true ∧ APP_ID_MIN_LENGTH ≤ ds.length := by
  intro cs
  induction cs with
  | nil => intro prevWord ds h; simp [findEmbeddedId] at h
  | cons c1 rest ih =>
    intro prevWord ds h
    by_cases hc : prevWord = false ∧ (c1 = 'i' ∨ c1 = 'I')
    · simp only [findEmbeddedId, if_pos hc] at h
      cases hat : embeddedAttempt rest with
      | some ds2 => rw [hat] at h; cases h; exact embeddedAttempt_digits hat
      | none => rw [hat] at h; exact ih h
    · simp only [findEmbeddedId, if_neg hc] at h
      exact ih h

theorem parseAppInput_digits {v : String} {a : AppParse}
    (h : parseAppInput v = some a) :
    a.appId.data.all Char.isDigit = true ∧ APP_ID_MIN_LENGTH ≤ a.appId.data.length := by
  simp only [parseAppInput] at h
  by_cases h0 : trimChars v.data = []
  · rw [if_pos h0] at h
    exact Option.noConfusion h
  · rw [if_neg h0] at h
    cases h1 : matchPrefixedId (trimChars v.data) with
    | some ds =>
      rw [h1] at h
      injection h with h
      cases h
      exact matchPrefixedId_digits h1
    | none =>
      rw [h1] at h
      cases h2 : matchBareId (trimChars v.data) with
      | some ds =>
        rw [h2] at h
        injection h with h
        cases h
        exact matchBareId_digits h2
      | none =>
        rw [h2] at h
        cases h3 : (urlParseChars (trimChars v.data)).bind
            (fun u => findPathIdMatch u.pathname) with
        | some ds =>
          rw [h3] at h
          injection h with h
          cases h
          cases hu : urlParseChars (trimChars v.data) with
          | some u =>
            rw [hu] at h3
            exact findPathIdMatch_digits h3
          | none => rw [hu] at h3; exact Option.noConfusion h3
        | none =>
          rw [h3] at h
          cases h4 : findEmbeddedId false (trimChars v.data) with
          | some ds =>
            rw [h4] at h
            injection h with h
            cases h
            exact findEmbeddedId_digits h4
          | none => rw [h4] at h; exact Option.noConfusion h

/-- C9: every normalizer is a total function signalling failure via
`none`/empty results (in this embedding each is a pure `Option`-valued
function, mirroring that the JS code never throws on malformed input) and
every success is a validated value; in particular a URL-parse failure
inside `parseAppInput` is swallowed, falling through to the embedded-id
substring strategy. -/
theorem normalizers_total (v : String) (rest : List String) :
    (normalizePlatform v = none ∨
      ∃ p, normalizePlatform v = some p ∧ p ∈ SUPPORTED_PLATFORMS) ∧
    (normalizeRegionCode v = none ∨
      ∃ r, normalizeRegionCode v = some r ∧ r.data.length = 2 ∧
        r.data.all (fun c => 'A' ≤ c && c ≤ 'Z') = true) ∧
    (parseAppInput v = none ∨
      ∃ a, parseAppInput v = some a ∧ a.appId.data.all Char.isDigit = true ∧
        APP_ID_MIN_LENGTH ≤ a.appId.data.length) ∧
    (normalizePlannedTrackedAppId v = none ∨
      ∃ p, normalizePlannedTrackedAppId v = some p ∧ p ≠ "" ∧
        p.data.length ≤ MAX_PLANNED_TRACKED_APP_ID_LENGTH ∧
        p.data.all (fun c => !wsChar c) = true) ∧
    (∀ w ∈ normalizeKeywordArgs rest, w ≠ "") ∧
    (normalizeDateOnly v = none ∨ normalizeDateOnly v = some (jsTrim v)) ∧
    (parsePeriodValue v = none ∨ parsePeriodValue v = some 7 ∨
      parsePeriodValue v = some 30 ∨ parsePeriodValue v = some 90) ∧
    (matchPrefixedId (trimChars v.data) = none →
      matchBareId (trimChars v.data) = none →
      urlParseChars (trimChars v.data) = none →
      parseAppInput v =
        (findEmbeddedId false (trimChars v.data)).map (fun ds => ⟨String.mk ds⟩)) := by
  refine ⟨?_, ?_, ?_, ?_, ?_, ?_, ?_, ?_⟩
  · by_cases hc : SUPPORTED_PLATFORMS.contains
        (String.mk ((trimChars v.data).map Char.toLower)) = true
    · right
      refine ⟨String.mk ((trimChars v.data).map Char.toLower), ?_, ?_⟩
      · show (if SUPPORTED_PLATFORMS.contains
            (String.mk ((trimChars v.data).map Char.toLower)) = true then
            some (String.mk ((trimChars v.data).map Char.toLower)) else none) = _
        rw [if_pos hc]
      · exact List.elem_iff.mp hc
    · left
      show (if SUPPORTED_PLATFORMS.contains
          (String.mk ((trimChars v.data).map Char.toLower)) = true then
          some (String.mk ((trimChars v.data).map Char.toLower)) else none) = none
      rw [if_neg hc]
  · by_cases hc : ((trimChars v.data).map Char.toUpper).length = 2 ∧
        ((trimChars v.data).map Char.toUpper).all (fun c => 'A' ≤ c && c ≤ 'Z') = true
    · right
      refine ⟨String.mk ((trimChars v.data).map Char.toUpper), ?_, hc.1, hc.2⟩
      show (if ((trimChars v.data).map Char.toUpper).length = 2 ∧
          ((trimChars v.data).map Char.toUpper).all (fun c => 'A' ≤ c && c ≤ 'Z') = true then
          some (String.mk ((trimChars v.data).map Char.toUpper)) else none) = _
      rw [if_pos hc]
    · left
      show (if ((trimChars v.data).map Char.toUpper).length = 2 ∧
          ((trimChars v.data).map Char.toUpper).all (fun c => 'A' ≤ c && c ≤ 'Z') = true then
          some (String.mk ((trimChars v.data).map Char.toUpper)) else none) = none
      rw [if_neg hc]
  · cases hpa : parseAppInput v with
    | none => exact Or.inl rfl
    | some a =>
      right
      exact ⟨a, rfl, (parseAppInput_digits hpa).1, (parseAppInput_digits hpa).2⟩
  · by_cases h0 : (trimChars v.data).filter (fun c => !wsChar c) = []
    · left
      show (if (trimChars v.data).filter (fun c => !wsChar c) = [] then none
        else if MAX_PLANNED_TRACKED_APP_ID_LENGTH <
          ((trimChars v.data).filter (fun c => !wsChar c)).length then none
        else some (String.mk ((trimChars v.data).filter (fun c => !wsChar c)))) = none
      rw [if_pos h0]
    · by_cases h64 : MAX_PLANNED_TRACKED_APP_ID_LENGTH <
          ((trimChars v.data).filter (fun c => !wsChar c)).length
      · left
        show (if (trimChars v.data).filter (fun c => !wsChar c) = [] then none
          else if MAX_PLANNED_TRACKED_APP_ID_LENGTH <
            ((trimChars v.data).filter (fun c => !wsChar c)).length then none
          else some (String.mk ((trimChars v.data).filter (fun c => !wsChar c)))) = none
        rw [if_neg h0, if_pos h64]
      · right
        refine ⟨String.mk ((trimChars v.data).filter (fun c => !wsChar c)), ?_, ?_, ?_, ?_⟩
        · show (if (trimChars v.data).filter (fun c => !wsChar c) = [] then none
            else if MAX_PLANNED_TRACKED_APP_ID_LENGTH <
              ((trimChars v.data).filter (fun c => !wsChar c)).length then none
            else some (String.mk ((trimChars v.data).filter (fun c => !wsChar c)))) = _
          rw [if_neg h0, if_neg h64]
        · intro hmk
          exact h0 (congrArg String.data hmk)
        · exact not_lt.mp h64
        · refine List.all_eq_true.mpr ?_
          intro c hcmem
          exact (List.mem_filter.mp hcmem).2
  · intro w hw
    have := (List.mem_filter.mp hw).2
    simpa using this
  · simp only [normalizeDateOnly]
    split
    · rename_i y1 y2 y3 y4 h1c m1 m2 h2c d1 d2 heq
      split
      · split
        · right
          rw [jsTrim, heq]
        · left; rfl
      · left; rfl
    · left; rfl
  · cases hpi : jsParseIntPrefix (trimChars v.data) with
    | none => left; simp [parsePeriodValue, hpi]
    | some parsed =>
      by_cases hmem : parsed = 7 ∨ parsed = 30 ∨ parsed = 90
      · rcases hmem with h7 | h30 | h90
        · right; left; simp [parsePeriodValue, hpi, h7]
        · right; right; left; simp [parsePeriodValue, hpi, h30]
        · right; right; right; simp [parsePeriodValue, hpi, h90]
      · left; simp [parsePeriodValue, hpi, hmem]
  · intro hp hb hu
    simp only [parseAppInput, hp, hb, hu, Option.bind_none]
    by_cases h0 : trimChars v.data = []
    · rw [if_pos h0, h0]
      rfl
    · rw [if_neg h0]
      cases h4 : findEmbeddedId false (trimChars v.data) <;> simp [h4]

/-- A path/region/slug segment that is entirely `id` followed by six or
more digits — the only segment shape the pathname regex can match at a
segment boundary. -/
def idDigitsToken : List Char → Bool
  | c1 :: c2 :: rest =>
    (c1 = 'i' || c1 = 'I') && (c2 = 'd' || c2 = 'D') &&
      rest.all Char.isDigit && decide (APP_ID_MIN_LENGTH ≤ rest.length)
  | _ => false

theorem takeWhile_append_of_all {p : Char → Bool} :
    ∀ (l t : List Char), l.all p = true →
      (l ++ t).takeWhile p = l ++ t.takeWhile p := by
  intro l t h
  induction l with
  | nil => rfl
  | cons c l2 ih =>
    rw [List.all_cons, Bool.and_eq_true] at h
    simp only [List.cons_append, List.takeWhile_cons, h.1, ih h.2]
    simp

theorem takeWhile_eq_self_of_all {p : Char → Bool} :
    ∀ {l : List Char}, l.all p = true → l.takeWhile p = l := by
  intro l h
  have := takeWhile_append_of_all l [] h
  simpa using this

theorem exists_break {p : Char → Bool} :
    ∀ {l : List Char}, l.all p = false →
      ∃ d c r2, l = d ++ c :: r2 ∧ d.all p = true ∧ p c = false ∧
        l.takeWhile p = d := by
  intro l
  induction l with
  | nil => intro h; simp at h
  | cons a t ih =>
    intro h
    by_cases hpa : p a = true
    · have ht : t.all p = false := by
        rw [List.all_cons, hpa, Bool.true_and] at h
        exact h
      obtain ⟨d, c, r2, hl, hd, hc, htw⟩ := ih ht
      refine ⟨a :: d, c, r2, by rw [hl, List.cons_append], ?_, hc, ?_⟩
      · rw [List.all_cons, hpa, Bool.true_and]; exact hd
      · rw [List.takeWhile_cons, if_pos hpa, htw]
    · have hpa2 : p a = false := by
        cases hv : p a
        · rfl
        · exact absurd hv hpa
      exact ⟨[], a, t, rfl, rfl, hpa2, by rw [List.takeWhile_cons, if_neg (by simp [hpa2])]⟩

theorem idSegMatch_seg_none : ∀ (seg tail : List Char), '/' ∉ seg →
    idDigitsToken seg = false → idSegMatch (seg ++ '/' :: tail) = none := by
  intro seg tail hslash htok
  match seg with
  | [] =>
    cases tail with
    | nil => rfl
    | cons c2 t2 =>
      simp only [List.nil_append, idSegMatch]
      rw [if_neg]
      rintro ⟨hc, -⟩
      rcases hc with hc | hc <;> exact absurd hc (by decide)
  | [c] =>
    simp only [List.cons_append, List.nil_append, idSegMatch]
    rw [if_neg]
    rintro ⟨-, hd⟩
    rcases hd with hd | hd <;> exact absurd hd (by decide)
  | c1 :: c2 :: r =>
    by_cases hid : (c1 = 'i' ∨ c1 = 'I') ∧ (c2 = 'd' ∨ c2 = 'D')
    · simp only [List.cons_append, idSegMatch]
      rw [if_pos hid]
      by_cases hall : r.all Char.isDigit = true
      · have htw : (r ++ '/' :: tail).takeWhile Char.isDigit = r := by
          rw [takeWhile_append_of_all r _ hall, List.takeWhile_cons,
            if_neg (by simp), List.append_nil]
        have hlen : ¬ APP_ID_MIN_LENGTH ≤ r.length := by
          intro hle
          apply absurd htok
          simp only [idDigitsToken, hall, decide_eq_true hle, Bool.and_true]
          rcases hid.1 with h1 | h1 <;> rcases hid.2 with h2 | h2 <;>
            simp [h1, h2]
        rw [htw, if_neg]
        rintro ⟨h6, -⟩
        exact hlen h6
      · have hallf : r.all Char.isDigit = false := by
          cases hv : r.all Char.isDigit
          · rfl
          · exact absurd hv hall
        obtain ⟨d, cst, r2, hrr, hd, hcst, -⟩ := exists_break hallf
        have htw : (r ++ '/' :: tail).takeWhile Char.isDigit = d := by
          rw [hrr, List.append_assoc, List.cons_append,
            takeWhile_append_of_all d _ hd, List.takeWhile_cons,
            if_neg (by simp [hcst]), List.append_nil]
        have hdrop : (r ++ '/' :: tail).drop d.length = cst :: (r2 ++ '/' :: tail) := by
          rw [hrr, List.append_assoc, List.cons_append]
          exact List.drop_left d (cst :: (r2 ++ '/' :: tail))
        rw [htw, hdrop, if_neg]
        rintro ⟨-, hso⟩
        have hcsteq : cst = '/' := by simpa [slashOrEnd] using hso
        apply hslash
        rw [hrr, hcsteq]
        simp
    · simp only [List.cons_append, idSegMatch]
      rw [if_neg hid]

theorem findPathIdMatch_slash_none {rest : List Char}
    (h : idSegMatch rest = none) :
    findPathIdMatch ('/' :: rest) = findPathIdMatch rest := by
  simp only [findPathIdMatch]
  rw [if_pos trivial, h]

theorem findPathIdMatch_slash_some {rest ds : List Char}
    (h : idSegMatch rest = some ds) :
    findPathIdMatch ('/' :: rest) = some ds := by
  simp only [findPathIdMatch]
  rw [if_pos trivial, h]

theorem findPathIdMatch_cons_ne {c : Char} {rest : List Char} (h : c ≠ '/') :
    findPathIdMatch (c :: rest) = findPathIdMatch rest := by
  simp only [findPathIdMatch]
  rw [if_neg h]

theorem findPathIdMatch_append_no_slash : ∀ (seg tail : List Char), '/' ∉ seg →
    findPathIdMatch (seg ++ tail) = findPathIdMatch tail := by
  intro seg tail h
  induction seg with
  | nil => rfl
  | cons c s ih =>
    have hc : c ≠ '/' := fun hh => h (by simp [hh])
    have hs2 : '/' ∉ s := fun hh => h (by simp [hh])
    rw [List.cons_append, findPathIdMatch_cons_ne hc]
    exact ih hs2

theorem startsWithSeq_append_self : ∀ (p l : List Char),
    startsWithSeq (p ++ l) p = true := by
  intro p l
  induction p with
  | nil =>
    cases l with
    | nil => rfl
    | cons c t => rfl
  | cons c p2 ih =>
    have hstep : startsWithSeq (c :: (p2 ++ l)) (c :: p2) =
        (c = c && startsWithSeq (p2 ++ l) p2) := rfl
    rw [List.cons_append, hstep, ih]
    simp

theorem findPathIdMatch_url (region slug digits : List Char)
    (hr : '/' ∉ region) (hs2 : '/' ∉ slug)
    (hrt : idDigitsToken region = false) (hst : idDigitsToken slug = false)
    (hd : digits.all Char.isDigit = true)
    (hlen : APP_ID_MIN_LENGTH ≤ digits.length) :
    findPathIdMatch ('/' :: (region ++ '/' :: 'a' :: 'p' :: 'p' :: '/' ::
      (slug ++ '/' :: 'i' :: 'd' :: digits))) = some digits := by
  have h1 : idSegMatch (region ++ '/' ::
      ('a' :: 'p' :: 'p' :: '/' :: (slug ++ '/' :: 'i' :: 'd' :: digits))) = none :=
    idSegMatch_seg_none region _ hr hrt
  have h2 : idSegMatch ('a' :: 'p' :: 'p' :: '/' ::
      (slug ++ '/' :: 'i' :: 'd' :: digits)) = none := by
    simp only [idSegMatch]
    rw [if_neg]
    rintro ⟨hc, -⟩
    rcases hc with hc | hc <;> exact absurd hc (by decide)
  have h3 : idSegMatch (slug ++ '/' :: ('i' :: 'd' :: digits)) = none :=
    idSegMatch_seg_none slug _ hs2 hst
  have h4 : idSegMatch ('i' :: 'd' :: digits) = some digits := by
    simp only [idSegMatch]
    rw [if_pos ⟨Or.inl trivial, Or.inl trivial⟩, takeWhile_eq_self_of_all hd,
      List.drop_length, if_pos ⟨hlen, rfl⟩]
  rw [findPathIdMatch_slash_none h1,
    findPathIdMatch_append_no_slash region _ hr,
    findPathIdMatch_slash_none h2,
    findPathIdMatch_cons_ne (by decide), findPathIdMatch_cons_ne (by decide),
    findPathIdMatch_cons_ne (by decide),
    findPathIdMatch_slash_none h3,
    findPathIdMatch_append_no_slash slug _ hs2,
    findPathIdMatch_slash_some h4]

/-- C4 counterexample: an Apple App Store URL of the claimed shape whose
digit run is shorter than six digits yields `none` — the claim's
"extracts the digits" fails (the pathname regex requires at least six). -/
theorem app_locator_url_short_digits :
    parseAppInput "https://apps.apple.com/us/app/chat/id12345" = none := by
  decide

/-- C4 (amended): any trimmed input that is an `id`-prefixed (any casing)
or bare digit run of at least six digits parses to exactly that run; and
an Apple App Store URL `https://apps.apple.com/<region>/app/<slug>/id<digits>`
parses to `<digits>` provided the digit run has length at least six and
neither `<region>` nor `<slug>` is itself an id-prefixed digit run of six
or more digits (which the pathname regex would match first). -/
theorem app_locator_parsing :
    (∀ (s : String) (pre d : List Char),
      (pre = [] ∨ pre = ['i', 'd'] ∨ pre = ['i', 'D'] ∨ pre = ['I', 'd'] ∨
        pre = ['I', 'D']) →
      d.all Char.isDigit = true → APP_ID_MIN_LENGTH ≤ d.length →
      trimChars s.data = pre ++ d →
      parseAppInput s = some ⟨String.mk d⟩) ∧
    (∀ (s : String) (region slug digits : List Char),
      trimChars s.data = "https://apps.apple.com/".toList ++ region ++
        "/app/".toList ++ slug ++ ['/', 'i', 'd'] ++ digits →
      '/' ∉ region → '?' ∉ region → '#' ∉ region →
      '/' ∉ slug → '?' ∉ slug → '#' ∉ slug →
      idDigitsToken region = false → idDigitsToken slug = false →
      digits.all Char.isDigit = true → APP_ID_MIN_LENGTH ≤ digits.length →
      parseAppInput s = some ⟨String.mk digits⟩) := by
  constructor
  · intro s pre d hpre hall hlen htrim
    have hd0 : d ≠ [] := by
      intro h
      rw [h] at hlen
      simp [APP_ID_MIN_LENGTH] at hlen
    rcases hpre with rfl | rfl | rfl | rfl | rfl
    · -- bare digit run
      rw [List.nil_append] at htrim
      match d, hd0 with
      | c1 :: d1, _ =>
        match d1 with
        | [] => simp [APP_ID_MIN_LENGTH] at hlen
        | c2 :: d2 =>
          have hc1 : c1.isDigit = true := by
            have := List.all_eq_true.mp hall c1 (by simp)
            simpa using this
          have hm1 : matchPrefixedId (c1 :: c2 :: d2) = none := by
            simp only [matchPrefixedId]
            rw [if_neg]
            rintro ⟨hc, -⟩
            rcases hc with rfl | rfl <;> exact absurd hc1 (by decide)
          have hm2 : matchBareId (c1 :: c2 :: d2) = some (c1 :: c2 :: d2) := by
            simp only [matchBareId]
            rw [if_pos ⟨by simp, hall, hlen⟩]
          simp only [parseAppInput]
          rw [htrim, if_neg (by simp), hm1, hm2]
    all_goals
      simp only [List.cons_append, List.nil_append] at htrim
      simp only [parseAppInput]
      rw [htrim, if_neg (by simp)]
      simp only [matchPrefixedId]
      rw [if_pos ⟨by simp, by simp, hall, hlen⟩]
  · intro s region slug digits htrim hr hq hh hs2 hq2 hh2 hrt hst hd hlen
    have htrimB : trimChars s.data =
        'h':: 't':: 't':: 'p':: 's':: ':':: '/':: '/':: 'a':: 'p':: 'p':: 's':: '.'::
          'a':: 'p':: 'p':: 'l':: 'e':: '.':: 'c':: 'o':: 'm':: '/'::
          (region ++ '/':: 'a':: 'p':: 'p':: '/'::(slug ++ '/':: 'i':: 'd'::digits)) := by
      rw [htrim]
      simp only [show ("https://apps.apple.com/".toList : List Char) =
          ['h','t','t','p','s',':','/','/','a','p','p','s','.','a','p','p','l',
            'e','.','c','o','m','/'] from rfl,
        show ("/app/".toList : List Char) = ['/','a','p','p','/'] from rfl,
        List.append_assoc, List.cons_append, List.nil_append]
    have hne : trimChars s.data ≠ [] := by
      rw [htrimB]
      simp
    have hm1 : matchPrefixedId (trimChars s.data) = none := by
      rw [htrimB]
      rfl
    have hm2 : matchBareId (trimChars s.data) = none := by
      rw [htrimB]
      rfl
    have hurl : urlParseChars (trimChars s.data) =
        some ⟨('/'::(region ++ '/':: 'a':: 'p':: 'p':: '/'::
          (slug ++ '/':: 'i':: 'd'::digits))).takeWhile
            (fun c => !(c = '?' || c = '#'))⟩ := by
      rw [htrimB]
      rfl
    have hpath : ('/'::(region ++ '/':: 'a':: 'p':: 'p':: '/'::
        (slug ++ '/':: 'i':: 'd'::digits))).takeWhile
          (fun c => !(c = '?' || c = '#')) =
        '/'::(region ++ '/':: 'a':: 'p':: 'p':: '/'::(slug ++ '/':: 'i':: 'd'::digits)) := by
      apply takeWhile_eq_self_of_all
      apply List.all_eq_true.mpr
      intro c hc
      rcases List.mem_cons.mp hc with rfl | hc
      · decide
      rcases List.mem_append.mp hc with hcr | hc
      · have hq' : ¬ c = '?' := fun hcc => hq (hcc ▸ hcr)
        have hh' : ¬ c = '#' := fun hcc => hh (hcc ▸ hcr)
        simp [hq', hh']
      rcases List.mem_cons.mp hc with rfl | hc
      · decide
      rcases List.mem_cons.mp hc with rfl | hc
      · decide
      rcases List.mem_cons.mp hc with rfl | hc
      · decide
      rcases List.mem_cons.mp hc with rfl | hc
      · decide
      rcases List.mem_cons.mp hc with rfl | hc
      · decide
      rcases List.mem_append.mp hc with hcs | hc
      · have hq' : ¬ c = '?' := fun hcc => hq2 (hcc ▸ hcs)
        have hh' : ¬ c = '#' := fun hcc => hh2 (hcc ▸ hcs)
        simp [hq', hh']
      rcases List.mem_cons.mp hc with rfl | hc
      · decide
      rcases List.mem_cons.mp hc with rfl | hc
      · decide
      rcases List.mem_cons.mp hc with rfl | hc
      · decide
      · have hcd : c.isDigit = true := by
          have := List.all_eq_true.mp hd c hc
          simpa using this
        have h1 : ¬ c = '?' := by
          intro hcc
          rw [hcc] at hcd
          exact absurd hcd (by decide)
        have h2 : ¬ c = '#' := by
          intro hcc
          rw [hcc] at hcd
          exact absurd hcd (by decide)
        simp [h1, h2]
    have hscan := findPathIdMatch_url region slug digits hr hs2 hrt hst hd hlen
    have hbind : ((some (⟨'/'::(region ++ '/':: 'a':: 'p':: 'p':: '/'::
        (slug ++ '/':: 'i':: 'd'::digits))⟩ : UrlParts)).bind
          (fun u => findPathIdMatch u.pathname)) =
        findPathIdMatch ('/'::(region ++ '/':: 'a':: 'p':: 'p':: '/'::
          (slug ++ '/':: 'i':: 'd'::digits))) := rfl
    simp only [parseAppInput]
    rw [if_neg hne, hm1, hm2, hurl, hpath, hbind, hscan]

/-- C4 witness: the spec's documented example URL and an id-prefixed token
both parse to their digit run. -/
theorem app_locator_parsing_witness :
    parseAppInput "id6448311069" = some ⟨"6448311069"⟩ ∧
    parseAppInput "https://apps.apple.com/us/app/chatgpt/id6448311069" =
      some ⟨"6448311069"⟩ := by
  constructor
  · have h := app_locator_parsing.1 "id6448311069" ['i', 'd'] "6448311069".toList
      (by simp) (by decide) (by decide) (by decide)
    rw [h]
    rfl
  · have h := app_locator_parsing.2
      "https://apps.apple.com/us/app/chatgpt/id6448311069"
      "us".toList "chatgpt".toList "6448311069".toList
      (by decide) (by decide) (by decide) (by decide) (by decide) (by decide)
      (by decide) (by decide) (by decide) (by decide) (by decide)
    rw [h]
    rfl

/-- C9 witness: a non-URL string falls through the swallowed URL-parse
failure to the embedded-id strategy and still parses. -/
theorem normalizers_total_witness :
    parseAppInput "see id6448311069 now" = some ⟨"6448311069"⟩ ∧
    normalizeDateOnly "x" = none := by
  constructor
  · have h := (normalizers_total "see id6448311069 now" []).2.2.2.2.2.2.2
      (by decide) (by decide) (by decide)
    rw [h]
    decide
  · rcases (normalizers_total "x" []).2.2.2.2.2.1 with h | h
    · exact h
    · exact absurd h (by decide)

end Aso
